import Mathlib

/-!
Shallow embedding of `src/main.rs` of mycp437generator.

The embedding covers the CP437 code-page table (`get_cp437_char`), the
width-match size solver of `main` (the `for iteration in 1..128` loop),
the atlas composer's per-glyph placement and blit-rectangle computation,
and the hex bitmask packer `dump_surface_as_hex`.

Machine integers are modelled as `Nat`/`Int`, with an explicit `% 2^32`
where the Rust `u32` arithmetic can wrap (the `as u32` cast of an `i32`
metric, the `width + 31` of the packer).  The external SDL_ttf font
backend is modelled as an oracle `Nat → Char → Option GlyphMetrics`
(point size and character to metrics), the per-index vector of rendered
surfaces as `Nat → Option Glyph`, exactly the data the Rust code reads
from the library.  The f32 `font_size` only ever holds the integer loop
counter 1..127, all exactly representable, so it is modelled as `Nat`.
-/

set_option maxRecDepth 100000

namespace Cp437

/-- CP437 character mapping, embedding `get_cp437_char` (src/main.rs:36-201).
The Rust function takes a `u8`; the `32..=126 => index as char` arm is the
leading `if`, and indices ≥ 256, which cannot occur for a `u8`, fall through
to the final catch-all. -/
def get_cp437_char (index : Nat) : Char :=
  if 32 ≤ index ∧ index ≤ 126 then Char.ofNat index
  else match index with
  | 0 => ' '
  | 1 => '☺'
  | 2 => '☻'
  | 3 => '♥'
  | 4 => '♦'
  | 5 => '♣'
  | 6 => '♠'
  | 7 => '•'
  | 8 => '◘'
  | 9 => '○'
  | 10 => '◙'
  | 11 => '♂'
  | 12 => '♀'
  | 13 => '♪'
  | 14 => '♫'
  | 15 => '☼'
  | 16 => '►'
  | 17 => '◄'
  | 18 => '↕'
  | 19 => '‼'
  | 20 => '¶'
  | 21 => '§'
  | 22 => '▬'
  | 23 => '↨'
  | 24 => '↑'
  | 25 => '↓'
  | 26 => '→'
  | 27 => '←'
  | 28 => '∟'
  | 29 => '↔'
  | 30 => '▲'
  | 31 => '▼'
  | 127 => '⌂'
  | 128 => 'Ç'
  | 129 => 'ü'
  | 130 => 'é'
  | 131 => 'â'
  | 132 => 'ä'
  | 133 => 'à'
  | 134 => 'å'
  | 135 => 'ç'
  | 136 => 'ê'
  | 137 => 'ë'
  | 138 => 'è'
  | 139 => 'ï'
  | 140 => 'î'
  | 141 => 'ì'
  | 142 => 'Ä'
  | 143 => 'Å'
  | 144 => 'É'
  | 145 => 'æ'
  | 146 => 'Æ'
  | 147 => 'ô'
  | 148 => 'ö'
  | 149 => 'ò'
  | 150 => 'û'
  | 151 => 'ù'
  | 152 => 'ÿ'
  | 153 => 'Ö'
  | 154 => 'Ü'
  | 155 => '¢'
  | 156 => '£'
  | 157 => '¥'
  | 158 => '₧'
  | 159 => 'ƒ'
  | 160 => 'á'
  | 161 => 'í'
  | 162 => 'ó'
  | 163 => 'ú'
  | 164 => 'ñ'
  | 165 => 'Ñ'
  | 166 => 'ª'
  | 167 => 'º'
  | 168 => '¿'
  | 169 => '⌐'
  | 170 => '¬'
  | 171 => '½'
  | 172 => '¼'
  | 173 => '¡'
  | 174 => '«'
  | 175 => '»'
  | 176 => '░'
  | 177 => '▒'
  | 178 => '▓'
  | 179 => '│'
  | 180 => '┤'
  | 181 => '╡'
  | 182 => '╢'
  | 183 => '╖'
  | 184 => '╕'
  | 185 => '╣'
  | 186 => '║'
  | 187 => '╗'
  | 188 => '╝'
  | 189 => '╜'
  | 190 => '╛'
  | 191 => '┐'
  | 192 => '└'
  | 193 => '┴'
  | 194 => '┬'
  | 195 => '├'
  | 196 => '─'
  | 197 => '┼'
  | 198 => '╞'
  | 199 => '╟'
  | 200 => '╚'
  | 201 => '╔'
  | 202 => '╩'
  | 203 => '╦'
  | 204 => '╠'
  | 205 => '═'
  | 206 => '╬'
  | 207 => '╧'
  | 208 => '╨'
  | 209 => '╤'
  | 210 => '╥'
  | 211 => '╙'
  | 212 => '╘'
  | 213 => '╒'
  | 214 => '╓'
  | 215 => '╫'
  | 216 => '╪'
  | 217 => '┘'
  | 218 => '┌'
  | 219 => '█'
  | 220 => '▄'
  | 221 => '▌'
  | 222 => '▐'
  | 223 => '▀'
  | 224 => 'α'
  | 225 => 'ß'
  | 226 => 'Γ'
  | 227 => 'π'
  | 228 => 'Σ'
  | 229 => 'σ'
  | 230 => 'µ'
  | 231 => 'τ'
  | 232 => 'Φ'
  | 233 => 'Θ'
  | 234 => 'Ω'
  | 235 => 'δ'
  | 236 => '∞'
  | 237 => 'φ'
  | 238 => 'ε'
  | 239 => '∩'
  | 240 => '≡'
  | 241 => '±'
  | 242 => '≥'
  | 243 => '≤'
  | 244 => '⌠'
  | 245 => '⌡'
  | 246 => '÷'
  | 247 => '≈'
  | 248 => '°'
  | 249 => '∙'
  | 250 => '·'
  | 251 => '√'
  | 252 => 'ⁿ'
  | 253 => '²'
  | 254 => '■'
  | _ => ' '

/-! ## Bitmask packer: embedding of `dump_surface_as_hex` (src/main.rs:205-291) -/

/-- Padded scanline width (src/main.rs:214):
`let padded_width = ((width + 31) / 32) * 32;` in `u32` arithmetic, so the
addition wraps mod 2^32 (the subsequent `/ 32 * 32` cannot overflow). -/
def paddedWidth (width : Nat) : Nat := ((width + 31) % 4294967296) / 32 * 32

/-- Pixel classification of the packer (src/main.rs:238-248): read the three
channel bytes at `y * pitch + x * bytes_per_pixel` only when `offset + 2`
is strictly below the buffer length; otherwise the pixel counts as
background.  `pixels` is the locked byte buffer, each entry a `u8`. -/
def isFilled (pixels : List Nat) (pitch bytes_per_pixel y x : Nat) : Bool :=
  let pixel_offset := y * pitch + x * bytes_per_pixel
  if pixel_offset + 2 < pixels.length then
    let r := pixels.getD pixel_offset 0
    let g := pixels.getD (pixel_offset + 1) 0
    let b := pixels.getD (pixel_offset + 2) 0
    decide ((r + g + b) / 3 < 128)
  else
    false

/-- One scanline's bit vector (src/main.rs:233-256): push `is_filled` for
`x in 0..width`, then pad with `false` while the length is below
`padded_width` (truncated subtraction mirrors the `while` doing nothing
when `padded_width < width`). -/
def scanlineBits (pixels : List Nat) (pitch bytes_per_pixel width padded_width y : Nat) :
    List Bool :=
  (List.range width).map (fun x => isFilled pixels pitch bytes_per_pixel y x) ++
    List.replicate (padded_width - width) false

/-- Inner accumulation of `for (i, &bit) in chunk.iter().enumerate()
{ if bit { value |= 1 << i; } }` (src/main.rs:260-265). -/
def packBitsAux : List Bool → Nat → Nat → Nat
  | [], _, value => value
  | bit :: rest, i, value =>
    packBitsAux rest (i + 1) (if bit then value ||| (1 <<< i) else value)

/-- Pack one ≤32-bit chunk into a word, starting from `value = 0`, `i = 0`. -/
def packChunk (chunk : List Bool) : Nat := packBitsAux chunk 0 0

/-- `bits.chunks(32)` of the Rust slice: successive sublists of length 32
(the final one possibly shorter; empty input yields no chunks). -/
def chunksOf32 (l : List Bool) : List (List Bool) :=
  match l with
  | [] => []
  | bit :: rest => ((bit :: rest).take 32) :: chunksOf32 ((bit :: rest).drop 32)
termination_by l.length
decreasing_by simp; omega

/-- The words contributed by one scanline (src/main.rs:259-267). -/
def packScanline (bits : List Bool) : List Nat := (chunksOf32 bits).map packChunk

/-- `all_values` (src/main.rs:231-268): scanlines processed for
`y in 0..height`, top to bottom, each appending its words. -/
def allValues (pixels : List Nat) (pitch bytes_per_pixel width height : Nat) : List Nat :=
  (List.range height).flatMap fun y =>
    packScanline (scanlineBits pixels pitch bytes_per_pixel width (paddedWidth width) y)

/-! ## Size solver: embedding of main's step 1 (src/main.rs:305-346) -/

/-- Glyph metrics as returned by `find_glyph_metrics` (signed `i32` fields). -/
structure GlyphMetrics where
  minx : Int
  maxx : Int
  miny : Int
  maxy : Int
deriving DecidableEq

/-- The Rust cast `metrics.maxx as u32` (src/main.rs:324): reinterpret an
`i32` two's-complement value as `u32`, i.e. reduce mod 2^32. -/
def u32ofI32 (x : Int) : Nat := (x % 4294967296).toNat

/-- A font-metrics oracle: what `font.find_glyph_metrics(ch)` answers when the
font is loaded at integer point size `size`.  `none` means the character is
not in the font. -/
def MetricsOracle := Nat → Char → Option GlyphMetrics

/-- Widest-glyph scan of one solver iteration (src/main.rs:317-325):
`max_width = 0; for i in 0..=255 { ... max_width = max_width.max(metrics.maxx as u32) }`,
skipping characters the font lacks. -/
def maxWidthAt (oracle : MetricsOracle) (size : Nat) : Nat :=
  (List.range 256).foldl
    (fun max_width i =>
      match oracle size (get_cp437_char i) with
      | none => max_width
      | some m => Nat.max max_width (u32ofI32 m.maxx))
    0

/-- The solver loop body (src/main.rs:309-338): `for iteration in 1..128`
sets `font_size = iteration`, recomputes `max_width`, and breaks at the
first size with `max_width >= font_width` (the target).  Returns the final
`(font_size, max_width)` pair.  The `fuel` argument only drives structural
recursion; `solve` starts it at 126 so it reaches 0 exactly at
`iter = 127`, the last iteration, where the loop ends with the same state
whether or not the test succeeds. -/
def solveLoop (oracle : MetricsOracle) (target : Nat) : Nat → Nat → Nat × Nat
  | iter, 0 => (iter, maxWidthAt oracle iter)
  | iter, fuel + 1 =>
    if target ≤ maxWidthAt oracle iter then (iter, maxWidthAt oracle iter)
    else if iter < 127 then solveLoop oracle target (iter + 1) fuel
    else (iter, maxWidthAt oracle iter)

/-- The whole solver (src/main.rs:307-338): iterations 1, 2, ..., at most 127. -/
def solve (oracle : MetricsOracle) (target : Nat) : Nat × Nat :=
  solveLoop oracle target 1 126

/-- The solver's iteration trace: the `max_width` value observed at each
tried size 1, 2, ..., final size. -/
def solverTrace (oracle : MetricsOracle) (target : Nat) : List Nat :=
  (List.range (solve oracle target).1).map fun j => maxWidthAt oracle (j + 1)

/-- `let font_width = max_width;` (src/main.rs:346): the cell width actually
used downstream is the solver's final observed `max_width`. -/
def resolvedCellWidth (oracle : MetricsOracle) (target : Nat) : Nat :=
  (solve oracle target).2

/-- `let atlas_width = font_width * 16;` (src/main.rs:398) with the resolved
cell width. -/
def resolvedAtlasWidth (oracle : MetricsOracle) (target : Nat) : Nat :=
  resolvedCellWidth oracle target * 16

/-! ## Atlas composer: embedding of main's step 3 (src/main.rs:397-497) -/

/-- A rendered glyph surface: the width/height the composer reads from
`char_surface`. -/
structure Glyph where
  width : Nat
  height : Nat
deriving DecidableEq

/-- A destination rectangle as built by `Rect::new(i32, i32, u32, u32)`. -/
structure IRect where
  x : Int
  y : Int
  w : Nat
  h : Nat
deriving DecidableEq

/-- Everything the compose loop reads: the resolved cell geometry
(`font_width`, `font_height`), the font's `descent()`, the per-index vector
`rendered` of optional surfaces (src/main.rs:375-382), the metrics lookup
`font.find_glyph_metrics` keyed by character, and the source pixels the blit
copies (as the colour glyph `i` contributes at an atlas coordinate). -/
structure ComposeCfg where
  fontWidth : Nat
  fontHeight : Nat
  descent : Int
  surf : Nat → Option Glyph
  metrics : Char → Option GlyphMetrics
  ink : Nat → Nat → Nat → Nat

/-- `let atlas_width = font_width * 16;` (src/main.rs:398). -/
def atlasWidth (font_width : Nat) : Nat := font_width * 16

/-- `let atlas_height = font_height * 16;` (src/main.rs:399). -/
def atlasHeight (font_height : Nat) : Nat := font_height * 16

/-- `let cell_x = col as i32 * font_width as i32;` with `col = i % 16`
(src/main.rs:422-424). -/
def cellX (font_width i : Nat) : Nat := (i % 16) * font_width

/-- `let cell_y = row as i32 * font_height as i32;` with `row = i / 16`
(src/main.rs:423-425). -/
def cellY (font_height i : Nat) : Nat := (i / 16) * font_height

/-- Horizontal centering (src/main.rs:428):
`let x_offset = ((font_width as i32 - char_surface.width() as i32) / 2).max(0);`
Rust `i32` division truncates toward zero, i.e. `Int.tdiv`. -/
def xOffset (font_width glyph_width : Nat) : Int :=
  max (((font_width : Int) - (glyph_width : Int)).tdiv 2) 0

/-- Vertical placement (src/main.rs:453-461). -/
def yOffset (font_height glyph_height : Nat) (m : GlyphMetrics) (descent : Int) : Int :=
  if glyph_height = font_height then 0
  else if m.miny + descent ≤ 1 then (font_height : Int) - (glyph_height : Int)
  else 0

/-- The compose loop skips index `i` when the surface is missing
(src/main.rs:412-420), the metrics lookup fails (src/main.rs:430-441), or
the metrics have a zero extent (src/main.rs:443-451). -/
def skipGlyph (c : ComposeCfg) (i : Nat) : Bool :=
  match c.surf i with
  | none => true
  | some _ =>
    match c.metrics (get_cp437_char i) with
    | none => true
    | some m => decide (m.miny = m.maxy) || decide (m.minx = m.maxx)

/-- The overflow warning of the compose loop (src/main.rs:463-473): emitted
exactly when `y_offset + char_surface.height() > font_height`, naming the
character, index, offset and the two heights. -/
def warnCond (c : ComposeCfg) (i : Nat) : Bool :=
  match c.surf i, c.metrics (get_cp437_char i) with
  | some g, some m =>
    if decide (m.miny = m.maxy) || decide (m.minx = m.maxx) then false
    else
      decide ((c.fontHeight : Int) <
        yOffset c.fontHeight g.height m c.descent + (g.height : Int))
  | _, _ => false

/-- The destination rectangle of the blit (src/main.rs:475-480):
`Rect::new(cell_x + x_offset, cell_y + y_offset,
char_surface.width().min(font_width), char_surface.height().min(font_height))`,
or `none` when the glyph is skipped. -/
def dstRect (c : ComposeCfg) (i : Nat) : Option IRect :=
  match c.surf i with
  | none => none
  | some g =>
    match c.metrics (get_cp437_char i) with
    | none => none
    | some m =>
      if decide (m.miny = m.maxy) || decide (m.minx = m.maxx) then none
      else
        some ⟨(cellX c.fontWidth i : Int) + xOffset c.fontWidth g.width,
              (cellY c.fontHeight i : Int) + yOffset c.fontHeight g.height m c.descent,
              min g.width c.fontWidth,
              min g.height c.fontHeight⟩

/-- Membership of an atlas pixel in a destination rectangle. -/
def inIRect (r : IRect) (px py : Nat) : Bool :=
  decide (r.x ≤ (px : Int)) && decide ((px : Int) < r.x + (r.w : Int)) &&
    decide (r.y ≤ (py : Int)) && decide ((py : Int) < r.y + (r.h : Int))

/-- White background fill of the atlas, `Color::RGB(255, 255, 255)`
(src/main.rs:404-406), encoded as a packed RGB value. -/
def bgColor : Nat := 16777215

/-- One pass of the compose loop for index `i`: a skipped glyph leaves the
atlas untouched; otherwise the blit (src/main.rs:496) overwrites the pixels
of the destination rectangle with the glyph's source pixels (opaque
replacement).  Per the spec's §6 imaging interface, `blit` writes the
passed destination rectangle. -/
def composeStep (c : ComposeCfg) (atlas : Nat → Nat → Nat) (i : Nat) : Nat → Nat → Nat :=
  match dstRect c i with
  | none => atlas
  | some r => fun px py => if inIRect r px py then c.ink i px py else atlas px py

/-- The whole compose loop (src/main.rs:411-497) over the white-filled atlas,
indices 0..255 in order. -/
def compose (c : ComposeCfg) : Nat → Nat → Nat :=
  (List.range 256).foldl (composeStep c) fun _ _ => bgColor

/-- Whether an atlas pixel lies in the 16×16-grid cell of glyph `i`. -/
def inCell (font_width font_height i px py : Nat) : Bool :=
  decide (cellX font_width i ≤ px) && decide (px < cellX font_width i + font_width) &&
    decide (cellY font_height i ≤ py) && decide (py < cellY font_height i + font_height)

/-! ## Concrete fonts and configurations used to evaluate the model -/

/-- A font whose widest glyph measures 12 at every point size. -/
def oracleConst12 : MetricsOracle := fun _ _ => some ⟨0, 12, 0, 20⟩

/-- A font whose measured max widths across sizes 1, 2, 3 are 5, 3, 100:
the measurement dips before it jumps. -/
def oracleDip : MetricsOracle := fun s _ =>
  some ⟨0, if s = 1 then 5 else if s = 2 then 3 else 100, 0, 2⟩

/-- A font with no glyphs at all. -/
def oracleEmpty : MetricsOracle := fun _ _ => none

/-- A monospace-style font whose max glyph width equals the point size. -/
def oracleLinear : MetricsOracle := fun s _ => some ⟨0, (s : Int), 0, 2⟩

/-- A compose configuration whose glyph 0 (the character ' ') renders 12
pixels wide in a 10-pixel-wide, 20-pixel-tall cell: horizontal clipping is
necessary for it. -/
def cfgWideGlyph : ComposeCfg where
  fontWidth := 10
  fontHeight := 20
  descent := 0
  surf := fun i => if i = 0 then some ⟨12, 20⟩ else none
  metrics := fun ch => if ch = ' ' then some ⟨0, 12, 0, 10⟩ else none
  ink := fun _ _ _ => 0

/-- A compose configuration with 10×10 cells whose only rendered glyph,
index 16 (character '►', cell row 1 column 0), is 12 pixels tall with
metrics satisfying the bottom-align test, so its destination rectangle
starts 2 pixels above its own cell. -/
def cfgBleed : ComposeCfg where
  fontWidth := 10
  fontHeight := 10
  descent := 0
  surf := fun i => if i = 16 then some ⟨4, 12⟩ else none
  metrics := fun ch => if ch = '►' then some ⟨0, 4, 0, 5⟩ else none
  ink := fun _ _ _ => 0

/-- A compose configuration in which every glyph is skipped. -/
def cfgAllSkip : ComposeCfg where
  fontWidth := 8
  fontHeight := 8
  descent := 0
  surf := fun _ => none
  metrics := fun _ => none
  ink := fun _ _ _ => 0

/-! ## Helper lemmas -/

lemma paddedWidth_eq {w : Nat} (hw : w < 2 ^ 31) :
    paddedWidth w = (w + 31) / 32 * 32 := by
  unfold paddedWidth
  have : (w + 31) % 4294967296 = w + 31 := Nat.mod_eq_of_lt (by omega)
  rw [this]

lemma getD_map_range {α : Type} (g : Nat → α) (q j : Nat) (d : α) (hj : j < q) :
    ((List.range q).map g).getD j d = g j := by
  rw [List.getD_eq_getElem?_getD, List.getElem?_map, List.getElem?_range hj]
  rfl

lemma packBitsAux_testBit (l : List Bool) : ∀ i v k : Nat,
    (packBitsAux l i v).testBit k =
      (v.testBit k || (decide (i ≤ k) && l.getD (k - i) false)) := by
  induction l with
  | nil => intro i v k; simp [packBitsAux]
  | cons b rest ih =>
    intro i v k
    rw [packBitsAux, ih]
    rcases Nat.lt_trichotomy k i with hk | hk | hk
    · have h1 : ¬ i ≤ k := by omega
      have h2 : ¬ i + 1 ≤ k := by omega
      have h3 : ¬ k ≥ i := by omega
      cases b <;>
        simp [h1, h2, Nat.testBit_or, Nat.testBit_shiftLeft, h3]
    · subst hk
      have h2 : ¬ k + 1 ≤ k := by omega
      have h4 : Nat.testBit 1 0 = true := rfl
      cases b <;>
        simp [h2, Nat.testBit_or, Nat.testBit_shiftLeft, h4]
    · have h1 : i ≤ k := by omega
      have h2 : i + 1 ≤ k := by omega
      have h5 : k - i = (k - (i + 1)) + 1 := by omega
      have h6 : Nat.testBit 1 (k - (i + 1) + 1) = false := by
        simp [Nat.testBit_succ]
      cases b <;>
        simp [h1, h2, Nat.testBit_or, Nat.testBit_shiftLeft, h5, h6,
          List.getD_cons_succ, Bool.or_assoc]

lemma packChunk_testBit (chunk : List Bool) (i : Nat) :
    (packChunk chunk).testBit i = chunk.getD i false := by
  rw [packChunk, packBitsAux_testBit]
  simp

lemma chunksOf32_eq_map : ∀ (n : Nat) (l : List Bool), l.length = 32 * n →
    chunksOf32 l = (List.range n).map fun j => (l.drop (32 * j)).take 32 := by
  intro n
  induction n with
  | zero =>
    intro l hl
    have : l = [] := List.eq_nil_of_length_eq_zero (by omega)
    subst this
    simp [chunksOf32]
  | succ n ih =>
    intro l hl
    match l with
    | [] => simp at hl
    | b :: rest =>
      rw [chunksOf32, ih ((b :: rest).drop 32) (by simp at hl ⊢; omega),
        List.range_succ_eq_map]
      simp only [List.map_cons, List.map_map, Nat.mul_zero, List.drop_zero]
      congr 1
      apply List.map_congr_left
      intro j _
      simp only [Function.comp_apply, List.drop_drop]
      congr 2
      omega

lemma flatMap_length_const {α : Type} (f : Nat → List α) (q : Nat) :
    ∀ h : Nat, (∀ a, a < h → (f a).length = q) →
      ((List.range h).flatMap f).length = h * q := by
  intro h
  induction h with
  | zero => intro _; simp
  | succ h ih =>
    intro hf
    rw [List.range_succ, List.flatMap_append, List.length_append,
      ih (fun a ha => hf a (by omega))]
    simp [hf h (by omega)]
    ring

lemma flatMap_getD {α : Type} (f : Nat → List α) (q : Nat) (d : α) :
    ∀ h y j : Nat, (∀ a, a < h → (f a).length = q) → y < h → j < q →
      ((List.range h).flatMap f).getD (y * q + j) d = (f y).getD j d := by
  intro h
  induction h with
  | zero => intro y j _ hy _; omega
  | succ h ih =>
    intro y j hf hy hj
    rw [List.range_succ, List.flatMap_append]
    by_cases hyh : y < h
    · rw [List.getD_append]
      · exact ih y j (fun a ha => hf a (by omega)) hyh hj
      · rw [flatMap_length_const f q h (fun a ha => hf a (by omega))]
        have h1 : (y + 1) * q = y * q + q := by ring
        have h2 : (y + 1) * q ≤ h * q := Nat.mul_le_mul_right q (by omega)
        omega
    · have hyeq : y = h := by omega
      subst hyeq
      rw [List.getD_append_right]
      · rw [flatMap_length_const f q y (fun a ha => hf a (by omega))]
        simp
      · rw [flatMap_length_const f q y (fun a ha => hf a (by omega))]
        omega

lemma scanlineBits_length (pixels : List Nat) (pitch bpp width pw y : Nat)
    (h : width ≤ pw) : (scanlineBits pixels pitch bpp width pw y).length = pw := by
  simp [scanlineBits]
  omega

lemma scanlineBits_getD_lt (pixels : List Nat) (pitch bpp width pw y x : Nat)
    (hx : x < width) :
    (scanlineBits pixels pitch bpp width pw y).getD x false =
      isFilled pixels pitch bpp y x := by
  rw [scanlineBits, List.getD_append _ _ _ x (by simpa using hx)]
  exact getD_map_range _ width x false hx

lemma scanlineBits_getD_ge (pixels : List Nat) (pitch bpp width pw y x : Nat)
    (hx : width ≤ x) :
    (scanlineBits pixels pitch bpp width pw y).getD x false = false := by
  rw [scanlineBits, List.getD_append_right _ _ _ x (by simpa using hx)]
  rw [List.getD_eq_getElem?_getD]
  rcases h : (List.replicate (pw - width) false)[x - (List.map _ (List.range width)).length]? with _ | b
  · rfl
  · have := List.getElem?_mem h
    simp only [List.eq_of_mem_replicate this]
    rfl

lemma getD_take_drop {α : Type} (l : List α) (n m i : Nat) (d : α) (him : i < m) :
    ((l.drop n).take m).getD i d = l.getD (n + i) d := by
  rw [List.getD_eq_getElem?_getD, List.getElem?_take, if_pos him,
    List.getElem?_drop, ← List.getD_eq_getElem?_getD]

lemma solveLoop_spec (oracle : MetricsOracle) (target : Nat) :
    ∀ fuel iter, 1 ≤ iter → iter + fuel = 127 →
      iter ≤ (solveLoop oracle target iter fuel).1 ∧
      (solveLoop oracle target iter fuel).1 ≤ 127 ∧
      (solveLoop oracle target iter fuel).2 =
        maxWidthAt oracle (solveLoop oracle target iter fuel).1 ∧
      (∀ s, iter ≤ s → s < (solveLoop oracle target iter fuel).1 →
        maxWidthAt oracle s < target) ∧
      (target ≤ (solveLoop oracle target iter fuel).2 ∨
        (solveLoop oracle target iter fuel).1 = 127) := by
  intro fuel
  induction fuel with
  | zero =>
    intro iter h1 h2
    have hi : iter = 127 := by omega
    subst hi
    have hred : solveLoop oracle target 127 0 = (127, maxWidthAt oracle 127) := by
      simp only [solveLoop]
    rw [hred]
    exact ⟨le_refl _, le_refl _, by simp, fun s hs1 hs2 => by simp at hs2; omega, Or.inr rfl⟩
  | succ fuel ih =>
    intro iter h1 h2
    by_cases hmw : target ≤ maxWidthAt oracle iter
    · have hred : solveLoop oracle target iter (fuel + 1) =
          (iter, maxWidthAt oracle iter) := by
        simp only [solveLoop, if_pos hmw]
      rw [hred]
      exact ⟨le_refl _, by omega, by simp, fun s hs1 hs2 => by simp at hs2; omega,
        Or.inl (by simpa using hmw)⟩
    · have hlt : iter < 127 := by omega
      have heq : solveLoop oracle target iter (fuel + 1) =
          solveLoop oracle target (iter + 1) fuel := by
        simp only [solveLoop, if_neg hmw, if_pos hlt]
      rw [heq]
      obtain ⟨a1, a2, a3, a4, a5⟩ := ih (iter + 1) (by omega) (by omega)
      refine ⟨by omega, a2, a3, ?_, a5⟩
      intro s hs1 hs2
      rcases Nat.eq_or_lt_of_le hs1 with hs | hs
      · subst hs; omega
      · exact a4 s (by omega) hs2

lemma foldl_ge_acc (g : Nat → Nat → Nat) (hg : ∀ acc i, acc ≤ g acc i) (l : List Nat) :
    ∀ acc, acc ≤ l.foldl g acc := by
  induction l with
  | nil => intro acc; simp
  | cons a t ih => intro acc; exact le_trans (hg acc a) (ih (g acc a))

lemma foldl_ge_elem (g : Nat → Nat → Nat) (hg : ∀ acc i, acc ≤ g acc i)
    (v : Nat → Nat) (hv : ∀ acc i, v i ≤ g acc i) (l : List Nat) :
    ∀ acc i, i ∈ l → v i ≤ l.foldl g acc := by
  induction l with
  | nil => intro acc i hi; simp at hi
  | cons a t ih =>
    intro acc i hi
    rcases List.mem_cons.mp hi with h | h
    · subst h; exact le_trans (hv acc i) (foldl_ge_acc g hg t (g acc i))
    · exact ih (g acc a) i h

lemma maxWidthAt_ub (oracle : MetricsOracle) (size i : Nat) (hi : i < 256)
    (m : GlyphMetrics) (hm : oracle size (get_cp437_char i) = some m) :
    u32ofI32 m.maxx ≤ maxWidthAt oracle size := by
  unfold maxWidthAt
  have := foldl_ge_elem
    (fun max_width j =>
      match oracle size (get_cp437_char j) with
      | none => max_width
      | some m' => Nat.max max_width (u32ofI32 m'.maxx))
    (fun acc j => by cases h : oracle size (get_cp437_char j) <;> simp [h])
    (fun j =>
      match oracle size (get_cp437_char j) with
      | none => 0
      | some m' => u32ofI32 m'.maxx)
    (fun acc j => by cases h : oracle size (get_cp437_char j) <;> simp [h])
    (List.range 256) 0 i (List.mem_range.mpr hi)
  simpa [hm] using this

lemma compose_foldl_const (c : ComposeCfg) (px py : Nat) :
    ∀ (l : List Nat) (atlas : Nat → Nat → Nat),
      (∀ j ∈ l, ∀ r, dstRect c j = some r → inIRect r px py = false) →
      (l.foldl (composeStep c) atlas) px py = atlas px py := by
  intro l
  induction l with
  | nil => intro atlas _; rfl
  | cons a t ih =>
    intro atlas h
    rw [List.foldl_cons, ih (composeStep c atlas a)
      (fun j hj => h j (List.mem_cons_of_mem a hj))]
    cases hr : dstRect c a with
    | none => simp [composeStep, hr]
    | some r => simp [composeStep, hr, h a (List.mem_cons_self a t) r hr]

lemma dstRect_none_of_skip (c : ComposeCfg) (i : Nat) (h : skipGlyph c i = true) :
    dstRect c i = none := by
  cases hs : c.surf i with
  | none => simp [dstRect, hs]
  | some g =>
    cases hm : c.metrics (get_cp437_char i) with
    | none => simp [dstRect, hs, hm]
    | some m =>
      simp only [skipGlyph, hs, hm] at h
      simp [dstRect, hs, hm, h]

lemma xOffset_eq (fw gw : Nat) : xOffset fw gw = ((fw - gw) / 2 : Nat) := by
  unfold xOffset
  rcases le_or_lt gw fw with h | h
  · have h1 : (fw : Int) - gw = ((fw - gw : Nat) : Int) := by omega
    rw [h1, show ((fw - gw : Nat) : Int).tdiv 2 = (((fw - gw) / 2 : Nat) : Int) from
      (Int.ofNat_tdiv (fw - gw) 2).symm]
    exact max_eq_left (Int.ofNat_nonneg _)
  · have h0 : fw - gw = 0 := by omega
    rw [h0]
    have h2 : (0 : Int) ≤ (-((fw : Int) - gw)).tdiv 2 :=
      Int.tdiv_nonneg (by omega) (by omega)
    have h3 : ((fw : Int) - gw).tdiv 2 = -((-((fw : Int) - gw)).tdiv 2) := by
      rw [← Int.neg_tdiv, neg_neg]
    exact max_eq_right (by omega)

lemma dstRect_some_elim (c : ComposeCfg) (i : Nat) (g : Glyph) (m : GlyphMetrics)
    (hs : c.surf i = some g) (hm : c.metrics (get_cp437_char i) = some m)
    (r : IRect) (hr : dstRect c i = some r) :
    r = ⟨(cellX c.fontWidth i : Int) + xOffset c.fontWidth g.width,
         (cellY c.fontHeight i : Int) + yOffset c.fontHeight g.height m c.descent,
         min g.width c.fontWidth,
         min g.height c.fontHeight⟩ := by
  simp only [dstRect, hs, hm] at hr
  by_cases hz : (decide (m.miny = m.maxy) || decide (m.minx = m.maxx)) = true
  · rw [if_pos hz] at hr
    cases hr
  · rw [if_neg hz] at hr
    exact (Option.some_inj.mp hr).symm

lemma xOffset_nonneg (fw gw : Nat) : 0 ≤ xOffset fw gw := by
  rw [xOffset_eq]
  exact Int.ofNat_nonneg _

lemma xOffset_add_min_le (fw gw : Nat) :
    xOffset fw gw + ((min gw fw : Nat) : Int) ≤ (fw : Int) := by
  rw [xOffset_eq]
  have : (fw - gw) / 2 + min gw fw ≤ fw := by omega
  omega

lemma warnCond_eq (c : ComposeCfg) (i : Nat) (g : Glyph) (m : GlyphMetrics)
    (hs : c.surf i = some g) (hm : c.metrics (get_cp437_char i) = some m)
    (hz : (decide (m.miny = m.maxy) || decide (m.minx = m.maxx)) = false) :
    warnCond c i = decide ((c.fontHeight : Int) <
      yOffset c.fontHeight g.height m c.descent + (g.height : Int)) := by
  simp only [warnCond, hs, hm, hz]
  rw [if_neg (by simp [hz])]

/-! ## Claims -/

/-- C1: in width-match mode the size solver tries integer point sizes 1, 2,
3, ... ascending; at each size the computed max_width is the maximum
(u32-cast) max_x metric over the CP437 characters present in the font
(`maxWidthAt`); it accepts the first size whose max_width reaches the
requested cell width; it performs at most 127 iterations; and when no tried
size reaches the target it keeps the last tried size (127) together with
its last observed max_width, with no hard failure. -/
theorem C1_width_match_solver (oracle : MetricsOracle) (target : Nat) :
    1 ≤ (solve oracle target).1 ∧
    (solve oracle target).1 ≤ 127 ∧
    (solve oracle target).2 = maxWidthAt oracle (solve oracle target).1 ∧
    (∀ s, 1 ≤ s → s < (solve oracle target).1 → maxWidthAt oracle s < target) ∧
    (target ≤ (solve oracle target).2 ∨ (solve oracle target).1 = 127) ∧
    (∀ i, i < 256 → ∀ m,
      oracle (solve oracle target).1 (get_cp437_char i) = some m →
      u32ofI32 m.maxx ≤ (solve oracle target).2) := by
  unfold solve
  obtain ⟨h1, h2, h3, h4, h5⟩ := solveLoop_spec oracle target 126 1 (by omega) (by omega)
  refine ⟨h1, h2, h3, h4, h5, ?_⟩
  intro i hi m hm
  rw [h3]
  exact maxWidthAt_ub oracle _ i hi m hm

/-- C1 witness: on the monospace-style font whose max width equals the point
size, with target 10, every earlier size measured under 10 and the accepted
max_width reaches 10. -/
theorem C1_width_match_solver_witness :
    maxWidthAt oracleLinear 9 < 10 ∧ 10 ≤ (solve oracleLinear 10).2 := by
  have h := C1_width_match_solver oracleLinear 10
  refine ⟨h.2.2.2.1 9 (by omega) (by decide), ?_⟩
  rcases h.2.2.2.2.1 with h5 | h5
  · exact h5
  · exact absurd h5 (by decide)

/-- C2 counterexample: with requested cell width 10 and a font whose widest
glyph measures 12 already at point size 1, the produced atlas raster is
192 pixels wide, not 16 * 10 = 160: the requested width is not the cell
width actually used. -/
theorem C2_counterexample : resolvedAtlasWidth oracleConst12 10 ≠ 16 * 10 := by
  decide

/-- C2 amended: the cell width actually used is the solver's final observed
max_width, so the atlas raster (and the PNG saved from it) is
16 * max_width pixels wide; that equals 16 * W exactly when the solver's
final max_width is W itself, e.g. a monospace font converging to exactly
10 for target 10 yields a 160-pixel-wide atlas. -/
theorem C2_amended_atlas_width (oracle : MetricsOracle) (W : Nat) :
    resolvedAtlasWidth oracle W = 16 * (solve oracle W).2 ∧
    ((solve oracle W).2 = W → resolvedAtlasWidth oracle W = 16 * W) := by
  constructor
  · unfold resolvedAtlasWidth resolvedCellWidth
    ring
  · intro h
    unfold resolvedAtlasWidth resolvedCellWidth
    rw [h]
    ring

/-- C2 amended witness: the monospace-style font converges to max_width 10
at target 10, so the atlas is exactly 160 pixels wide. -/
theorem C2_amended_atlas_width_witness : resolvedAtlasWidth oracleLinear 10 = 16 * 10 :=
  (C2_amended_atlas_width oracleLinear 10).2 (by decide)

/-- C6: the horizontal offset of a glyph inside its cell is
max(0, (cell_width - glyph_width) / 2), written with truncated Nat
subtraction; the vertical offset is 0 when the glyph raster height equals
the cell height, cell_height - glyph_height when it differs and
min_y + descent <= 1 (bottom-align), and 0 in all remaining cases. -/
theorem C6_glyph_offsets (fw fh gw gh : Nat) (m : GlyphMetrics) (d : Int) :
    xOffset fw gw = (((fw - gw) / 2 : Nat) : Int) ∧
    (gh = fh → yOffset fh gh m d = 0) ∧
    (gh ≠ fh → m.miny + d ≤ 1 → yOffset fh gh m d = (fh : Int) - (gh : Int)) ∧
    (gh ≠ fh → 1 < m.miny + d → yOffset fh gh m d = 0) := by
  refine ⟨xOffset_eq fw gw, ?_, ?_, ?_⟩
  · intro h
    simp [yOffset, h]
  · intro h1 h2
    simp [yOffset, h1, h2]
  · intro h1 h2
    rw [yOffset, if_neg h1, if_neg (by omega)]

/-- C6 witness: a 12-pixel-tall ascender-only glyph in a 20-pixel cell is
bottom-aligned, and a 4-pixel-wide glyph in a 10-pixel cell is centered at
offset 3. -/
theorem C6_glyph_offsets_witness :
    yOffset 20 12 ⟨0, 4, 0, 5⟩ 0 = (20 : Int) - (12 : Int) ∧
    xOffset 10 4 = (((10 - 4) / 2 : Nat) : Int) := by
  have h := C6_glyph_offsets 10 20 4 12 ⟨0, 4, 0, 5⟩ 0
  exact ⟨h.2.2.1 (by decide) (by decide), h.1⟩

/-- C8: for surface widths in SDL's int range, padded_width equals
((w + 31) / 32) * 32: a multiple of 32, at least w, with equality exactly
when w is already a multiple of 32. -/
theorem C8_padded_width (w : Nat) (hw : w < 2 ^ 31) :
    paddedWidth w = (w + 31) / 32 * 32 ∧
    32 ∣ paddedWidth w ∧
    w ≤ paddedWidth w ∧
    (paddedWidth w = w ↔ 32 ∣ w) := by
  have he := paddedWidth_eq hw
  refine ⟨he, ⟨(w + 31) / 32, by rw [he]; ring⟩, by rw [he]; omega, ?_⟩
  rw [he]
  constructor
  · intro h
    exact ⟨w / 32, by omega⟩
  · rintro ⟨k, hk⟩
    omega

/-- C8 witness: at width 40 the padded width is 64, a multiple of 32. -/
theorem C8_padded_width_witness : paddedWidth 40 = (40 + 31) / 32 * 32 ∧ 32 ∣ paddedWidth 40 := by
  have h := C8_padded_width 40 (by decide)
  exact ⟨h.1, h.2.1⟩

/-- C10: the packer's pixel classification is total and in-bounds: it reads
the three channel bytes at y*pitch + x*bytes_per_pixel only when offset+2
is strictly below the buffer length (and then all three read offsets are in
bounds), and any pixel whose channel bytes are not fully contained in the
buffer is classified as background. -/
theorem C10_bounds_guard (pixels : List Nat) (pitch bpp y x : Nat) :
    (y * pitch + x * bpp + 2 < pixels.length →
      isFilled pixels pitch bpp y x =
        decide ((pixels.getD (y * pitch + x * bpp) 0 +
          pixels.getD (y * pitch + x * bpp + 1) 0 +
          pixels.getD (y * pitch + x * bpp + 2) 0) / 3 < 128) ∧
      y * pitch + x * bpp < pixels.length ∧
      y * pitch + x * bpp + 1 < pixels.length ∧
      y * pitch + x * bpp + 2 < pixels.length) ∧
    (pixels.length ≤ y * pitch + x * bpp + 2 → isFilled pixels pitch bpp y x = false) := by
  constructor
  · intro h
    refine ⟨?_, by omega, by omega, h⟩
    simp [isFilled, h]
  · intro h
    have h2 : ¬ (y * pitch + x * bpp + 2 < pixels.length) := by omega
    simp [isFilled, h2]

/-- C10 witness: on an empty pixel buffer the classification is background
rather than an out-of-bounds read. -/
theorem C10_bounds_guard_witness : isFilled [] 1 3 0 0 = false :=
  (C10_bounds_guard [] 1 3 0 0).2 (by decide)

/-- C3 counterexample: glyph 0 of `cfgWideGlyph` is 12 pixels wide in a
10-pixel cell, so its destination rectangle is clipped horizontally
(width 10 < 12), yet the compose loop's warning condition is false: a
necessary clip is not always accompanied by a warning. -/
theorem C3_counterexample :
    ((dstRect cfgWideGlyph 0).map IRect.w).getD 0 = 10 ∧
    ((cfgWideGlyph.surf 0).map Glyph.width).getD 0 = 12 ∧
    warnCond cfgWideGlyph 0 = false := by
  decide

/-- C3 amended: the destination rectangle's dimensions are clipped to
min(glyph_dimension, cell_dimension) on both axes; its horizontal extent
always stays inside the glyph's own cell; its vertical extent stays inside
the cell whenever the glyph is no taller than the cell; and the warning is
emitted exactly when y_offset + glyph_height exceeds the cell height — so
purely horizontal clipping emits no warning, and a bottom-aligned glyph
taller than its cell (negative y_offset) escapes its cell upward without a
warning. -/
theorem C3_amended_clip (c : ComposeCfg) (i : Nat) (g : Glyph) (m : GlyphMetrics)
    (hs : c.surf i = some g) (hm : c.metrics (get_cp437_char i) = some m)
    (r : IRect) (hr : dstRect c i = some r) :
    r.w = min g.width c.fontWidth ∧
    r.h = min g.height c.fontHeight ∧
    (cellX c.fontWidth i : Int) ≤ r.x ∧
    r.x + (r.w : Int) ≤ (cellX c.fontWidth i : Int) + (c.fontWidth : Int) ∧
    (g.height ≤ c.fontHeight →
      (cellY c.fontHeight i : Int) ≤ r.y ∧
      r.y + (r.h : Int) ≤ (cellY c.fontHeight i : Int) + (c.fontHeight : Int)) ∧
    warnCond c i = decide ((c.fontHeight : Int) <
      yOffset c.fontHeight g.height m c.descent + (g.height : Int)) := by
  have hre := dstRect_some_elim c i g m hs hm r hr
  have hx : r.x = (cellX c.fontWidth i : Int) + xOffset c.fontWidth g.width := by rw [hre]
  have hy : r.y = (cellY c.fontHeight i : Int) +
      yOffset c.fontHeight g.height m c.descent := by rw [hre]
  have hw : r.w = min g.width c.fontWidth := by rw [hre]
  have hh : r.h = min g.height c.fontHeight := by rw [hre]
  have hz : (decide (m.miny = m.maxy) || decide (m.minx = m.maxx)) = false := by
    cases hb : (decide (m.miny = m.maxy) || decide (m.minx = m.maxx)) with
    | false => rfl
    | true =>
      simp only [dstRect, hs, hm, hb] at hr
      simp at hr
  refine ⟨hw, hh, ?_, ?_, ?_, warnCond_eq c i g m hs hm hz⟩
  · have := xOffset_nonneg c.fontWidth g.width
    rw [hx]
    omega
  · have := xOffset_add_min_le c.fontWidth g.width
    rw [hx, hw]
    omega
  · intro hgh
    have hyo : yOffset c.fontHeight g.height m c.descent = 0 ∨
        yOffset c.fontHeight g.height m c.descent =
          (c.fontHeight : Int) - (g.height : Int) := by
      unfold yOffset
      by_cases h1 : g.height = c.fontHeight
      · rw [if_pos h1]
        exact Or.inl rfl
      · rw [if_neg h1]
        by_cases h2 : m.miny + c.descent ≤ 1
        · rw [if_pos h2]
          exact Or.inr rfl
        · rw [if_neg h2]
          exact Or.inl rfl
    rw [hy, hh]
    rcases hyo with h0 | hfg
    · rw [h0]
      omega
    · rw [hfg]
      omega

/-- C3 amended witness: for the wide glyph of `cfgWideGlyph`, whose raster
height equals the cell height, the rectangle is width-clipped to 10 and lies
inside the cell vertically. -/
theorem C3_amended_clip_witness :
    (((⟨0, 0, 10, 20⟩ : IRect)).w = min 12 cfgWideGlyph.fontWidth) ∧
    ((cellY cfgWideGlyph.fontHeight 0 : Int) ≤ ((⟨0, 0, 10, 20⟩ : IRect)).y) := by
  have h := C3_amended_clip cfgWideGlyph 0 ⟨12, 20⟩ ⟨0, 12, 0, 10⟩ (by decide) (by decide)
    ⟨0, 0, 10, 20⟩ (by decide)
  exact ⟨h.1, (h.2.2.2.2.1 (by decide)).1⟩

/-- C5: with resolved cell size (cw, ch) the atlas buffer is exactly 16*cw
pixels wide and 16*ch pixels tall; the glyph of byte value i is placed in
grid cell (i % 16, i / 16): its cell origin is ((i%16)*cw, (i/16)*ch), for
i < 256 the cell lies inside the atlas, and the blit rectangle's horizontal
extent stays inside that cell's column band. -/
theorem C5_atlas_layout (c : ComposeCfg) (i : Nat) :
    atlasWidth c.fontWidth = 16 * c.fontWidth ∧
    atlasHeight c.fontHeight = 16 * c.fontHeight ∧
    cellX c.fontWidth i = (i % 16) * c.fontWidth ∧
    cellY c.fontHeight i = (i / 16) * c.fontHeight ∧
    (i < 256 →
      cellX c.fontWidth i + c.fontWidth ≤ atlasWidth c.fontWidth ∧
      cellY c.fontHeight i + c.fontHeight ≤ atlasHeight c.fontHeight) ∧
    (∀ r, dstRect c i = some r →
      (cellX c.fontWidth i : Int) ≤ r.x ∧
      r.x + (r.w : Int) ≤ (cellX c.fontWidth i : Int) + (c.fontWidth : Int)) := by
  refine ⟨by unfold atlasWidth; ring, by unfold atlasHeight; ring, rfl, rfl, ?_, ?_⟩
  · intro hi
    constructor
    · have h1 : i % 16 ≤ 15 := by omega
      have h2 : (i % 16) * c.fontWidth + c.fontWidth ≤ 15 * c.fontWidth + c.fontWidth :=
        Nat.add_le_add_right (Nat.mul_le_mul_right _ h1) _
      have h3 : 15 * c.fontWidth + c.fontWidth = 16 * c.fontWidth := by ring
      unfold cellX atlasWidth
      omega
    · have h1 : i / 16 ≤ 15 := by omega
      have h2 : (i / 16) * c.fontHeight + c.fontHeight ≤ 15 * c.fontHeight + c.fontHeight :=
        Nat.add_le_add_right (Nat.mul_le_mul_right _ h1) _
      have h3 : 15 * c.fontHeight + c.fontHeight = 16 * c.fontHeight := by ring
      unfold cellY atlasHeight
      omega
  · intro r hr
    cases hsurf : c.surf i with
    | none => simp [dstRect, hsurf] at hr
    | some g =>
      cases hmet : c.metrics (get_cp437_char i) with
      | none => simp [dstRect, hsurf, hmet] at hr
      | some m =>
        have hre := dstRect_some_elim c i g m hsurf hmet r hr
        have hx : r.x = (cellX c.fontWidth i : Int) + xOffset c.fontWidth g.width := by
          rw [hre]
        have hw2 : r.w = min g.width c.fontWidth := by rw [hre]
        constructor
        · have := xOffset_nonneg c.fontWidth g.width
          rw [hx]
          omega
        · have := xOffset_add_min_le c.fontWidth g.width
          rw [hx, hw2]
          omega

/-- C5 witness: for `cfgWideGlyph` and index 0 the cell fits in the atlas
and the computed rectangle stays in the first column band. -/
theorem C5_atlas_layout_witness :
    cellX cfgWideGlyph.fontWidth 0 + cfgWideGlyph.fontWidth ≤
      atlasWidth cfgWideGlyph.fontWidth ∧
    (cellX cfgWideGlyph.fontWidth 0 : Int) ≤ ((⟨0, 0, 10, 20⟩ : IRect)).x := by
  have h := C5_atlas_layout cfgWideGlyph 0
  exact ⟨(h.2.2.2.2.1 (by decide)).1, (h.2.2.2.2.2 ⟨0, 0, 10, 20⟩ (by decide)).1⟩

/-- C7 counterexample: on the font whose measurements are 5, 3, 100 at
sizes 1, 2, 3, the width-match run with target 6 tries three sizes and its
max_width trace decreases from 5 to 3 between the first two iterations:
the trace is not monotonically non-decreasing for every font backend. -/
theorem C7_counterexample :
    ¬ (∀ j, j + 1 < (solverTrace oracleDip 6).length →
        (solverTrace oracleDip 6).getD j 0 ≤ (solverTrace oracleDip 6).getD (j + 1) 0) := by
  intro h
  have h0 := h 0 (by decide)
  simp only [Nat.zero_add] at h0
  have e0 : (solverTrace oracleDip 6).getD 0 0 = 5 := by decide
  have e1 : (solverTrace oracleDip 6).getD 1 0 = 3 := by decide
  omega

/-- C7 amended: under the monotone-measurement assumption on the font
backend (the assumption the source's hinting-disabled loop relies on), the
width-match solver's max_width trace is monotonically non-decreasing. -/
theorem C7_amended_monotone_trace (oracle : MetricsOracle) (W : Nat) (_hW : 0 < W)
    (hmono : ∀ s t, s ≤ t → maxWidthAt oracle s ≤ maxWidthAt oracle t) :
    ∀ j, j + 1 < (solverTrace oracle W).length →
      (solverTrace oracle W).getD j 0 ≤ (solverTrace oracle W).getD (j + 1) 0 := by
  intro j hj
  have hlen : (solverTrace oracle W).length = (solve oracle W).1 := by
    simp [solverTrace]
  rw [hlen] at hj
  rw [solverTrace, getD_map_range _ _ j _ (by omega), getD_map_range _ _ (j + 1) _ (by omega)]
  exact hmono (j + 1) (j + 1 + 1) (by omega)

/-- C7 amended witness: the empty font measures 0 at every size, a monotone
trace of length 127; adjacent entries are non-decreasing. -/
theorem C7_amended_monotone_trace_witness :
    (solverTrace oracleEmpty 1).getD 0 0 ≤ (solverTrace oracleEmpty 1).getD 1 0 := by
  refine C7_amended_monotone_trace oracleEmpty 1 (by decide) ?_ 0 ?_
  · intro s t h
    have e1 : maxWidthAt oracleEmpty s = 0 := rfl
    have e2 : maxWidthAt oracleEmpty t = 0 := rfl
    omega
  · have hl : (solverTrace oracleEmpty 1).length = 127 := by decide
    omega

/-- C9 counterexample: in `cfgBleed` glyph 0 is absent (skipped) and pixel
(3, 8) lies inside glyph 0's cell, yet the composed atlas holds ink there:
the bottom-aligned glyph 16, taller than its 10-pixel cell, bled into the
cell above, so an absent glyph's cell is not always left as the solid
background fill. -/
theorem C9_counterexample :
    skipGlyph cfgBleed 0 = true ∧ inCell 10 10 0 3 8 = true ∧
      compose cfgBleed 3 8 ≠ bgColor := by
  decide

/-- C9 amended: a glyph that is absent from the font, fails to render,
fails the metrics lookup, or has zero metrics extent is skipped: the
composer writes nothing for it, proceeds through all 256 cells without
propagating the failure, and every pixel of that glyph's cell remains the
solid background fill provided no other glyph's destination rectangle
covers the pixel (a neighboring bottom-aligned glyph taller than its cell
can otherwise bleed in). -/
theorem C9_amended_skip_background (c : ComposeCfg) (i px py : Nat)
    (hi : i < 256) (hskip : skipGlyph c i = true)
    (hin : inCell c.fontWidth c.fontHeight i px py = true)
    (hothers : ∀ j r, j < 256 → j ≠ i → dstRect c j = some r →
      inIRect r px py = false) :
    compose c px py = bgColor := by
  unfold compose
  rw [compose_foldl_const c px py (List.range 256) _ ?_]
  intro j hj r hr
  rcases eq_or_ne j i with rfl | hne
  · rw [dstRect_none_of_skip c j hskip] at hr
    cases hr
  · exact hothers j r (List.mem_range.mp hj) hne hr

/-- C4: the bitmask packer classifies an in-bounds pixel as ink exactly when
its average channel brightness (r+g+b)/3 is below 128 (`isFilled`), collects
each scanline's bits left to right, pads the scanline with false bits up to
padded_width, packs each group of 32 consecutive bits into one word with
chunk bit i stored in word bit i, and emits the words scanline after
scanline from top to bottom, height * (padded_width / 32) words in total. -/
theorem C4_packer (pixels : List Nat) (pitch bpp width height : Nat)
    (hw : width < 2 ^ 31) :
    (allValues pixels pitch bpp width height).length =
      height * (paddedWidth width / 32) ∧
    (∀ y x, y < height → x < width →
      (scanlineBits pixels pitch bpp width (paddedWidth width) y).getD x false =
        isFilled pixels pitch bpp y x) ∧
    (∀ y x, y < height → width ≤ x →
      (scanlineBits pixels pitch bpp width (paddedWidth width) y).getD x false = false) ∧
    (∀ y j i, y < height → j < paddedWidth width / 32 → i < 32 →
      ((allValues pixels pitch bpp width height).getD
          (y * (paddedWidth width / 32) + j) 0).testBit i =
        (scanlineBits pixels pitch bpp width (paddedWidth width) y).getD
          (32 * j + i) false) := by
  have hpe : paddedWidth width = (width + 31) / 32 * 32 := paddedWidth_eq hw
  have hwle : width ≤ paddedWidth width := by omega
  have hq : paddedWidth width = 32 * (paddedWidth width / 32) := by omega
  have hrow : ∀ y, (scanlineBits pixels pitch bpp width (paddedWidth width) y).length =
      paddedWidth width :=
    fun y => scanlineBits_length pixels pitch bpp width (paddedWidth width) y hwle
  have hchunks : ∀ y, chunksOf32 (scanlineBits pixels pitch bpp width (paddedWidth width) y) =
      (List.range (paddedWidth width / 32)).map fun j =>
        ((scanlineBits pixels pitch bpp width (paddedWidth width) y).drop (32 * j)).take 32 :=
    fun y => chunksOf32_eq_map (paddedWidth width / 32) _ (by rw [hrow y]; omega)
  have hlenrow : ∀ y,
      (packScanline (scanlineBits pixels pitch bpp width (paddedWidth width) y)).length =
        paddedWidth width / 32 := by
    intro y
    rw [packScanline, hchunks y]
    simp
  refine ⟨?_, ?_, ?_, ?_⟩
  · unfold allValues
    exact flatMap_length_const _ (paddedWidth width / 32) height (fun y _ => hlenrow y)
  · intro y x _ hx
    exact scanlineBits_getD_lt pixels pitch bpp width (paddedWidth width) y x hx
  · intro y x _ hx
    exact scanlineBits_getD_ge pixels pitch bpp width (paddedWidth width) y x hx
  · intro y j i hy hj hi
    unfold allValues
    rw [flatMap_getD _ (paddedWidth width / 32) 0 height y j
      (fun a _ => hlenrow a) hy hj]
    rw [packScanline, hchunks y, List.map_map,
      getD_map_range _ (paddedWidth width / 32) j 0 hj]
    simp only [Function.comp_apply]
    rw [packChunk_testBit]
    exact getD_take_drop _ (32 * j) 32 i false hi

/-- C4 witness: on a 1×1 black-pixel raster (3 bytes per pixel) the packer
emits one word and bit 0 of that word matches the scanline bit 0. -/
theorem C4_packer_witness :
    (allValues [0, 0, 0] 3 3 1 1).length = 1 * (paddedWidth 1 / 32) ∧
    ((allValues [0, 0, 0] 3 3 1 1).getD (0 * (paddedWidth 1 / 32) + 0) 0).testBit 0 =
      (scanlineBits [0, 0, 0] 3 3 1 (paddedWidth 1) 0).getD (32 * 0 + 0) false := by
  have h := C4_packer [0, 0, 0] 3 3 1 1 (by decide)
  exact ⟨h.1, h.2.2.2 0 0 0 (by decide) (by decide) (by decide)⟩

/-- C9 amended witness: in the all-skipped configuration the pixel (0, 0)
of glyph 0's cell is the background colour. -/
theorem C9_amended_skip_background_witness : compose cfgAllSkip 0 0 = bgColor :=
  C9_amended_skip_background cfgAllSkip 0 0 0 (by decide) (by decide) (by decide)
    (fun j r _ _ hr => by
      rw [show dstRect cfgAllSkip j = none from rfl] at hr
      cases hr)

end Cp437
